import Mathlib

/-!
# Verification of the SuperNET atomic-swap subsystem (`mm2src`)

Shallow embedding of the Rust sources under `mm2src/` and proofs of the
specification's claims about them.

Conventions of the embedding:
* Rust `BigDecimal` (arbitrary-precision decimal) is modelled as `ℚ`.
* Rust `HashMap<String, LockedAmount>` is modelled as an association list
  with unique keys; iteration order is irrelevant to every property proved
  here (the only map-wide operations are commutative sums).
* Fallible operations return `Option`/`Except`.
-/

namespace LpSwap

/-- `struct LockedAmount { coin: String, amount: BigDecimal }`
(lp_swap.rs, lines 154-158). -/
structure LockedAmount where
  coin : String
  amount : ℚ
deriving DecidableEq, Repr

/-- The `locked_amounts: HashMap<String, LockedAmount>` registry of
`SwapsContext` (lp_swap.rs, line 161), as an association list keyed by the
swap uuid. -/
abbrev Registry := List (String × LockedAmount)

/-- First-match lookup, the semantics of `HashMap::get` on a map whose keys
are unique. -/
def lookupEntry : Registry → String → Option LockedAmount
  | [], _ => none
  | (k, v) :: rest, u => if k = u then some v else lookupEntry rest u

/-- `fn lock_amount(ctx, uuid, coin, amount)` (lp_swap.rs, lines 176-183):
`locked.insert(uuid, LockedAmount { coin, amount })`.  `HashMap::insert`
replaces the value when the key is present and adds the pair otherwise; on
the association list this updates the (unique) occurrence in place. -/
def lock_amount : Registry → String → String → ℚ → Registry
  | [], uuid, coin, amount => [(uuid, ⟨coin, amount⟩)]
  | (k, v) :: rest, uuid, coin, amount =>
    if k = uuid then (uuid, ⟨coin, amount⟩) :: rest
    else (k, v) :: lock_amount rest uuid coin amount

/-- `fn unlock_amount(ctx, uuid, amount)` (lp_swap.rs, lines 187-201):
on `Entry::Occupied`, remove the entry when `entry.amount <= amount`,
otherwise `entry.amount -= amount`; on `Entry::Vacant`, do nothing. -/
def unlock_amount : Registry → String → ℚ → Registry
  | [], _, _ => []
  | (k, v) :: rest, uuid, amount =>
    if k = uuid then
      if v.amount ≤ amount then rest
      else (k, ⟨v.coin, v.amount - amount⟩) :: rest
    else (k, v) :: unlock_amount rest uuid amount

/-- `pub fn get_locked_amount(ctx, coin)` (lp_swap.rs, lines 204-215):
`locked.iter().fold(0, |total, (_, locked)| if locked.coin == coin
{ total + locked.amount } else { total })`. -/
def get_locked_amount (locked : Registry) (coin : String) : ℚ :=
  locked.foldl
    (fun total p => if p.2.coin = coin then total + p.2.amount else total) 0

/-- `fn get_locked_amount_by_other_swaps(ctx, except_uuid, coin)`
(lp_swap.rs, lines 218-229): the same fold, restricted to entries whose
uuid differs from `except_uuid`. -/
def get_locked_amount_by_other_swaps
    (locked : Registry) (except_uuid : String) (coin : String) : ℚ :=
  locked.foldl
    (fun total p =>
      if p.1 ≠ except_uuid ∧ p.2.coin = coin then total + p.2.amount
      else total) 0

/-- Registry states reachable from the empty map by `lock_amount` /
`unlock_amount` calls (the registry starts as `HashMap::new()`,
lp_swap.rs line 169). -/
inductive Reachable : Registry → Prop
  | empty : Reachable []
  | lock (st : Registry) (uuid coin : String) (amount : ℚ) :
      Reachable st → Reachable (lock_amount st uuid coin amount)
  | unlock (st : Registry) (uuid : String) (amount : ℚ) :
      Reachable st → Reachable (unlock_amount st uuid amount)

/-- Specification-side sum: `Σ entry.amount` over entries whose coin is
`coin`. -/
def sumLocked (locked : Registry) (coin : String) : ℚ :=
  ((locked.filter (fun p => p.2.coin = coin)).map (fun p => p.2.amount)).sum

/-- Specification-side sum excluding one uuid. -/
def sumLockedExcept (locked : Registry) (except_uuid coin : String) : ℚ :=
  ((locked.filter (fun p => p.1 ≠ except_uuid ∧ p.2.coin = coin)).map
    (fun p => p.2.amount)).sum

/-- Keys of the registry. -/
def keys (locked : Registry) : List String := locked.map Prod.fst

/-- `const PAYMENT_LOCKTIME: u64 = 3600 * 2 + 300 * 2` (lp_swap.rs,
line 150). -/
def PAYMENT_LOCKTIME : ℕ := 3600 * 2 + 300 * 2

/-- `fn lp_atomic_locktime(base, rel)` (lp_swap.rs, lines 234-242). -/
def lp_atomic_locktime (base rel : String) : ℕ :=
  if base = "BTC" ∨ rel = "BTC" then
    PAYMENT_LOCKTIME * 10
  else if base = "BCH" ∨ rel = "BCH" ∨ base = "BTG" ∨ rel = "BTG"
      ∨ base = "SBTC" ∨ rel = "SBTC" then
    PAYMENT_LOCKTIME * 4
  else
    PAYMENT_LOCKTIME

/-- `fn dex_fee_rate(base, rel)` (lp_swap.rs, lines 276-283):
`9/7770` when KMD is involved, `1/777` otherwise (`BigDecimal` division
modelled exactly on `ℚ`). -/
def dex_fee_rate (base rel : String) : ℚ :=
  if base = "KMD" ∨ rel = "KMD" then (9 : ℚ) / 7770
  else (1 : ℚ) / 777

/-- `pub fn dex_fee_amount(base, rel, trade_amount)` (lp_swap.rs, lines
285-294): the fee is `trade_amount * rate`, floored at the parsed minimum
`"0.0001"`. -/
def dex_fee_amount (base rel : String) (trade_amount : ℚ) : ℚ :=
  let rate := dex_fee_rate base rel
  let min_fee : ℚ := 1 / 10000
  let fee_amount := trade_amount * rate
  if fee_amount < min_fee then min_fee else fee_amount

/-- A successfully read entry of `<dbdir>/SWAPS/MY` as `my_recent_swaps`
sees it (lp_swap.rs, lines 516-546): its filesystem modification time
(`SystemTime`, only compared, modelled as `ℕ`), its path, and whether
`entry.path().extension() == Some(OsStr::new("json"))` (an OS-level test
carried as a field). -/
structure DirEntry where
  mtime : ℕ
  path : String
  isJson : Bool
deriving DecidableEq, Repr

/-- `fn my_swaps_dir(ctx)` (lp_swap.rs, lines 345-347). -/
def my_swaps_dir (dbdir : String) : String := dbdir ++ "/SWAPS/MY"

/-- `fn my_swap_file_path(ctx, uuid)` (lp_swap.rs, lines 349-351). -/
def my_swap_file_path (dbdir uuid : String) : String :=
  my_swaps_dir dbdir ++ "/" ++ uuid ++ ".json"

/-- Stable insertion into a list sorted by descending mtime: the new
element goes before the first strictly-smaller mtime and after entries
with an equal mtime that were read earlier. -/
def insertByMtime (e : DirEntry) : List DirEntry → List DirEntry
  | [] => [e]
  | x :: xs => if x.mtime ≤ e.mtime then e :: x :: xs
    else x :: insertByMtime e xs

/-- `entries.sort_by(|(a, _), (b, _)| b.cmp(&a))` (lp_swap.rs, line 548):
Rust's `sort_by` is a stable sort, and a stable sort is uniquely
determined by the comparator, so the stable insertion sort below is
extensionally the same function. -/
def sortByMtimeDesc : List DirEntry → List DirEntry
  | [] => []
  | e :: xs => insertByMtime e (sortByMtimeDesc xs)

/-- `entries.iter().position(pred)` (lp_swap.rs, line 551). -/
def position (p : DirEntry → Bool) : List DirEntry → Option ℕ
  | [] => none
  | e :: rest => if p e then some 0 else (position p rest).map (· + 1)

/-- `pub fn my_recent_swaps(ctx, req)` (lp_swap.rs, lines 513-580),
restricted to the list of returned swap entries: keep the `.json` files,
sort by mtime in descending order, compute `skip` from `from_uuid`
(position of that uuid's swap file plus one; an error when absent), and
return `.skip(skip).take(limit)` with `limit` defaulting to 10. -/
def my_recent_swaps (dbdir : String) (entries : List DirEntry)
    (limit : Option ℕ) (from_uuid : Option String) :
    Except String (List DirEntry) :=
  let lim := limit.getD 10
  let sorted := sortByMtimeDesc (entries.filter (·.isJson))
  match from_uuid with
  | some uuid =>
    match position (fun e => e.path = my_swap_file_path dbdir uuid)
        sorted with
    | some i => Except.ok ((sorted.drop (i + 1)).take lim)
    | none =>
      Except.error ("from_uuid " ++ uuid ++ " swap is not found")
  | none => Except.ok (sorted.take lim)

/-- `struct SwapNegotiationData` (lp_swap.rs, lines 337-343):
`started_at` and `payment_locktime` are `u64`, `secret_hash` an `H160`
(20 raw bytes) and `persistent_pubkey` an `H264` (33 raw bytes); bytes
are naturals below 256, `u64` values naturals below `2^64`. -/
structure SwapNegotiationData where
  started_at : ℕ
  payment_locktime : ℕ
  secret_hash : List ℕ
  persistent_pubkey : List ℕ
deriving DecidableEq, Repr

/-- Little-endian byte encoding of a machine integer on `k` bytes. -/
def toLEBytes : ℕ → ℕ → List ℕ
  | 0, _ => []
  | k + 1, n => n % 256 :: toLEBytes k (n / 256)

/-- Little-endian byte decoding. -/
def fromLEBytes : List ℕ → ℕ
  | [] => 0
  | b :: bs => b + 256 * fromLEBytes bs

/-- Modelled from the spec: the `Serializable` derive of the external
`serialization` crate (used at lp_swap.rs line 337 and exercised by
`test_serde_swap_negotiation_data`, lines 686-691) is not among the
repository's files.  Per the spec the payload is the binary little-endian
serialization of the documented structure: the fields in declaration
order, `u64` as 8 little-endian bytes, the 20- and 33-byte hashes as raw
bytes. -/
def serializeNegotiationData (d : SwapNegotiationData) : List ℕ :=
  toLEBytes 8 d.started_at ++ toLEBytes 8 d.payment_locktime ++
    d.secret_hash ++ d.persistent_pubkey

/-- Modelled from the spec: the matching `Deserializable` derive reads
the four fields back in order, consuming exactly 8 + 8 + 20 + 33 = 69
bytes, and fails on any other input length. -/
def deserializeNegotiationData (bs : List ℕ) :
    Option SwapNegotiationData :=
  if bs.length = 69 then
    some ⟨fromLEBytes (bs.take 8), fromLEBytes ((bs.drop 8).take 8),
      (bs.drop 16).take 20, bs.drop 36⟩
  else none

end LpSwap

namespace WasmWs

/-!
Embedding of the WebSocket transport state machine of
`common/transport/wasm_ws.rs` (lines 340-461).  A state's `on_changed`
loop is modelled one consumed `StateEvent` at a time by `stepState` /
`stepActions`; `runFrom` folds a list of events, inserting the actions a
state performs on entry (`entryActions`: the `notify_listener` /
`close_ws` calls made before the event loop).  JSON values are modelled
as strings; `json::to_string` on a `serde_json::Value` does not fail, so
the `SerializingError` branch of `send_to_ws` is unreachable in the
model.  Exhaustion of the merged event stream (which makes every state
close the socket and finish as `ClosedState`) consumes no event and is
outside `stepState`.
-/

/-- Payload of an outgoing or incoming message (`serde_json::Value`). -/
abbrev Json := String

/-- `enum OutgoingError` (wasm_ws.rs, lines 98-102). -/
inductive OutgoingErrorReason
  | IsNotConnected
  | SerializingError (description : String)
deriving DecidableEq, Repr

/-- `enum WebSocketError` (wasm_ws.rs, lines 91-96). -/
inductive WebSocketError
  | OutgoingError (reason : OutgoingErrorReason) (outgoing : Json)
  | UnderlyingError (description : String)
  | InvalidIncoming (description : String)
deriving DecidableEq, Repr

/-- `enum WebSocketEvent` (wasm_ws.rs, lines 77-89), the events delivered
to the user through the incoming channel. -/
inductive WebSocketEvent
  | Establish
  | Closing
  | Closed
  | Error (e : WebSocketError)
  | Incoming (msg : Json)
deriving DecidableEq, Repr

/-- `enum WsTransportEvent` (wasm_ws.rs, lines 321-327), the events raised
by the four platform callbacks. -/
inductive WsTransportEvent
  | Establish
  | Close
  | Error (description : String)
  | Incoming (msg : Json)
deriving DecidableEq, Repr

/-- `enum StateEvent` (wasm_ws.rs, lines 311-319), the multiplexed stream
consumed by the active state. -/
inductive StateEvent
  | UserSideClosed
  | OutgoingMessage (outgoing : Json)
  | WsTransportEvent (e : WsTransportEvent)
deriving DecidableEq, Repr

/-- The four states `ConnectingState`, `OpenState`, `ClosingState`,
`ClosedState` (wasm_ws.rs, lines 340-343). -/
inductive WsState
  | Connecting
  | Open
  | Closing
  | Closed
deriving DecidableEq, Repr

/-- Externally visible effects of a state: `notify_listener` (towards the
user's incoming channel), `ws.send_with_str` (a write on the socket) and
`ws.close_with_code`. -/
inductive Action
  | notify (e : WebSocketEvent)
  | sockSend (msg : Json)
  | sockClose (code : ℕ)
deriving DecidableEq, Repr

/-- `NORMAL_CLOSURE_CODE` (wasm_ws.rs, line 19). -/
def NORMAL_CLOSURE_CODE : ℕ := 1000

/-- Actions a state performs on entry, before consuming any event:
`OpenState` notifies `Establish` (line 402), `ClosingState` notifies
`Closing` and closes the socket (lines 444-445), `ClosedState` notifies
`Closed` (line 359); `ConnectingState` only logs. -/
def entryActions : WsState → List Action
  | .Connecting => []
  | .Open => [.notify .Establish]
  | .Closing => [.notify .Closing, .sockClose NORMAL_CLOSURE_CODE]
  | .Closed => [.notify .Closed]

/-- One iteration of the active state's event loop: the successor state
and the actions performed while handling the event (entry actions of the
successor excluded).  Transcribes the `match event` arms of
`ConnectingState::on_changed` (lines 370-387), `OpenState::on_changed`
(lines 405-428) and `ClosingState::on_changed` (lines 448-456);
`ClosedState` is a `LastState`: it consumes no events. -/
def stepWs : WsState → StateEvent → WsState × List Action
  | .Connecting, .UserSideClosed => (.Closing, [])
  | .Connecting, .OutgoingMessage outgoing =>
    (.Connecting,
     [.notify (.Error (.OutgoingError .IsNotConnected outgoing))])
  | .Connecting, .WsTransportEvent .Establish => (.Open, [])
  | .Connecting, .WsTransportEvent .Close => (.Closed, [])
  | .Connecting, .WsTransportEvent (.Error e) =>
    (.Closing, [.notify (.Error (.UnderlyingError e))])
  | .Connecting, .WsTransportEvent (.Incoming _) => (.Connecting, [])
  | .Open, .UserSideClosed => (.Closing, [])
  | .Open, .OutgoingMessage outgoing => (.Open, [.sockSend outgoing])
  | .Open, .WsTransportEvent .Establish => (.Open, [])
  | .Open, .WsTransportEvent .Close => (.Closed, [])
  | .Open, .WsTransportEvent (.Error e) =>
    (.Closing, [.notify (.Error (.UnderlyingError e))])
  | .Open, .WsTransportEvent (.Incoming incoming) =>
    (.Open, [.notify (.Incoming incoming)])
  | .Closing, .UserSideClosed => (.Closing, [])
  | .Closing, .OutgoingMessage outgoing =>
    (.Closing,
     [.notify (.Error (.OutgoingError .IsNotConnected outgoing))])
  | .Closing, .WsTransportEvent .Close => (.Closed, [])
  | .Closing, .WsTransportEvent (.Error e) =>
    (.Closing, [.notify (.Error (.UnderlyingError e))])
  | .Closing, .WsTransportEvent .Establish => (.Closing, [])
  | .Closing, .WsTransportEvent (.Incoming _) => (.Closing, [])
  | .Closed, _ => (.Closed, [])

/-- Run of the machine on a list of consumed events, accumulating the
actions (entry actions of each newly entered state included). -/
def runFrom : WsState → List StateEvent → WsState × List Action
  | s, [] => (s, [])
  | s, e :: rest =>
    let next := stepWs s e
    let tail := runFrom next.1 rest
    (tail.1,
     next.2 ++ (if next.1 = s then [] else entryActions next.1) ++ tail.2)

/-- The `TransitionFrom` declarations (wasm_ws.rs, lines 345-350). -/
def declaredTransition : WsState → WsState → Prop
  | .Connecting, .Open => True
  | .Connecting, .Closing => True
  | .Connecting, .Closed => True
  | .Open, .Closing => True
  | .Open, .Closed => True
  | .Closing, .Closed => True
  | _, _ => False

end WasmWs

namespace LpSwap

theorem foldl_add_init (f : String × LockedAmount → Prop)
    [DecidablePred f] (l : Registry) (init : ℚ) :
    l.foldl (fun total p => if f p then total + p.2.amount else total) init
      = init + ((l.filter (fun p => f p)).map (fun p => p.2.amount)).sum := by
  induction l generalizing init with
  | nil => simp
  | cons hd tl ih =>
    by_cases h : f hd <;> simp [h, ih, add_assoc]

theorem get_locked_amount_eq_sum (locked : Registry) (coin : String) :
    get_locked_amount locked coin = sumLocked locked coin := by
  have h := foldl_add_init (fun p => p.2.coin = coin) locked 0
  simpa [get_locked_amount, sumLocked] using h

theorem get_locked_amount_by_other_swaps_eq_sum
    (locked : Registry) (except_uuid coin : String) :
    get_locked_amount_by_other_swaps locked except_uuid coin
      = sumLockedExcept locked except_uuid coin := by
  have h := foldl_add_init
    (fun p => p.1 ≠ except_uuid ∧ p.2.coin = coin) locked 0
  simpa [get_locked_amount_by_other_swaps, sumLockedExcept] using h

theorem keys_lock_amount (st : Registry) (uuid coin : String) (amount : ℚ) :
    keys (lock_amount st uuid coin amount)
      = if uuid ∈ keys st then keys st else keys st ++ [uuid] := by
  induction st with
  | nil => simp [keys, lock_amount]
  | cons hd tl ih =>
    by_cases h : hd.1 = uuid
    · simp [keys, lock_amount, h]
    · have : ¬ uuid = hd.1 := fun hh => h hh.symm
      simp only [keys, List.map_cons] at ih ⊢
      simp [lock_amount, h, ih, List.mem_cons, this, keys]
      split <;> simp_all [keys]

theorem nodup_keys_lock (st : Registry) (uuid coin : String) (amount : ℚ)
    (h : (keys st).Nodup) : (keys (lock_amount st uuid coin amount)).Nodup := by
  rw [keys_lock_amount]
  split
  · exact h
  · next hmem => simpa [List.nodup_append] using ⟨h, hmem⟩

theorem keys_unlock_sublist (st : Registry) (uuid : String) (amount : ℚ) :
    List.Sublist (keys (unlock_amount st uuid amount)) (keys st) := by
  induction st with
  | nil => simp [keys, unlock_amount]
  | cons hd tl ih =>
    simp only [unlock_amount]
    by_cases h : hd.1 = uuid
    · by_cases h2 : hd.2.amount ≤ amount
      · simp [h, h2, keys]
      · simp [h, h2, keys]
    · simp only [h, if_false, keys, List.map_cons]
      exact (ih).cons₂ _

theorem nodup_keys_unlock (st : Registry) (uuid : String) (amount : ℚ)
    (h : (keys st).Nodup) : (keys (unlock_amount st uuid amount)).Nodup :=
  (keys_unlock_sublist st uuid amount).nodup h

/-- Every reachable registry has unique uuids (the `HashMap` invariant). -/
theorem reachable_nodup_keys (st : Registry) (h : Reachable st) :
    (keys st).Nodup := by
  induction h with
  | empty => simp [keys]
  | lock st uuid coin amount _ ih => exact nodup_keys_lock st uuid coin amount ih
  | unlock st uuid amount _ ih => exact nodup_keys_unlock st uuid amount ih

theorem lookupEntry_eq_none_of_not_mem (st : Registry) (u : String)
    (h : u ∉ keys st) : lookupEntry st u = none := by
  induction st with
  | nil => rfl
  | cons hd tl ih =>
    simp only [keys, List.map_cons, List.mem_cons, not_or] at h
    have : hd.1 ≠ u := fun hh => h.1 hh.symm
    simp [lookupEntry, this, ih (by simpa [keys] using h.2)]

/-- Claim C1, counterexample: on a registry already containing an entry for
uuid `"u"`, `lock_amount` silently replaces the entry instead of panicking:
the call is total and the old entry is gone afterwards. -/
theorem lock_amount_silently_replaces :
    lock_amount [("u", ⟨"A", 1⟩)] "u" "B" 2 = [("u", ⟨"B", 2⟩)] ∧
    lookupEntry (lock_amount [("u", ⟨"A", 1⟩)] "u" "B" 2) "u" ≠
      some ⟨"A", 1⟩ := by
  constructor
  · rfl
  · simp [lock_amount, lookupEntry]

/-- Claim C1 (amended): `lock_amount(uuid, coin, amount)` stores the entry
`{coin, amount}` under `uuid`, silently replacing any entry already locked
under that uuid (it never panics), and leaves the entry of every other uuid
unchanged. -/
theorem lock_amount_stores_entry (st : Registry) (uuid coin : String)
    (amount : ℚ) :
    lookupEntry (lock_amount st uuid coin amount) uuid = some ⟨coin, amount⟩ ∧
    ∀ v, v ≠ uuid →
      lookupEntry (lock_amount st uuid coin amount) v = lookupEntry st v := by
  induction st with
  | nil =>
    refine ⟨by simp [lock_amount, lookupEntry], fun v hv => ?_⟩
    have : uuid ≠ v := fun hh => hv hh.symm
    simp [lock_amount, lookupEntry, this]
  | cons hd tl ih =>
    by_cases h : hd.1 = uuid
    · refine ⟨by simp [lock_amount, h, lookupEntry], fun v hv => ?_⟩
      have h1 : uuid ≠ v := fun hh => hv hh.symm
      simp [lock_amount, h, lookupEntry, h1]
    · refine ⟨by simp [lock_amount, h, lookupEntry, ih.1], fun v hv => ?_⟩
      by_cases h2 : hd.1 = v
      · simp [lock_amount, h, lookupEntry, h2, hv]
      · simp [lock_amount, h, lookupEntry, h2, ih.2 v hv]

/-- Witness for `lock_amount_stores_entry` at a concrete registry. -/
theorem lock_amount_stores_entry_witness :
    lookupEntry (lock_amount [("a", ⟨"KMD", 3⟩)] "u" "BTC" 2) "u"
        = some ⟨"BTC", 2⟩ ∧
    lookupEntry (lock_amount [("a", ⟨"KMD", 3⟩)] "u" "BTC" 2) "a"
        = lookupEntry [("a", ⟨"KMD", 3⟩)] "a" :=
  ⟨(lock_amount_stores_entry [("a", ⟨"KMD", 3⟩)] "u" "BTC" 2).1,
   (lock_amount_stores_entry [("a", ⟨"KMD", 3⟩)] "u" "BTC" 2).2 "a"
     (by decide)⟩

/-- Claim C4: on a registry whose entry for `uuid` is `e`, `unlock_amount`
removes the entry exactly when `e.amount ≤ amount` and otherwise stores
`e.amount - amount`; every other uuid's entry is unchanged. -/
theorem unlock_amount_subtracts (st : Registry) (uuid : String) (amount : ℚ)
    (hnd : (keys st).Nodup) (e : LockedAmount)
    (he : lookupEntry st uuid = some e) :
    (lookupEntry (unlock_amount st uuid amount) uuid
        = if e.amount ≤ amount then none
          else some ⟨e.coin, e.amount - amount⟩) ∧
    ∀ v, v ≠ uuid →
      lookupEntry (unlock_amount st uuid amount) v = lookupEntry st v := by
  induction st with
  | nil => simp [lookupEntry] at he
  | cons hd tl ih =>
    simp only [keys, List.map_cons, List.nodup_cons] at hnd
    by_cases h : hd.1 = uuid
    · have hv : hd.2 = e := by
        simpa [lookupEntry, h] using he
      have hnotin : uuid ∉ keys tl := by
        simpa [keys, h] using hnd.1
      constructor
      · by_cases h2 : e.amount ≤ amount
        · simp [unlock_amount, h, hv, h2,
            lookupEntry_eq_none_of_not_mem tl uuid hnotin]
        · simp [unlock_amount, h, hv, h2, lookupEntry]
      · intro v hv2
        have h1 : uuid ≠ v := fun hh => hv2 hh.symm
        by_cases h2 : e.amount ≤ amount
        · simp [unlock_amount, h, hv, h2, lookupEntry, h1]
        · simp [unlock_amount, h, hv, h2, lookupEntry, h1]
    · have he2 : lookupEntry tl uuid = some e := by
        simpa [lookupEntry, h] using he
      have ih2 := ih (by simpa [keys] using hnd.2) he2
      constructor
      · simp [unlock_amount, h, lookupEntry, ih2.1]
      · intro v hv2
        by_cases h2 : hd.1 = v
        · simp [unlock_amount, h, lookupEntry, h2, hv2]
        · simp [unlock_amount, h, lookupEntry, h2, ih2.2 v hv2]

/-- Witness for `unlock_amount_subtracts` at a concrete registry. -/
theorem unlock_amount_subtracts_witness :
    (lookupEntry
        (unlock_amount [("u", ⟨"BTC", 5⟩), ("w", ⟨"KMD", 3⟩)] "u" 5) "u"
      = if (5 : ℚ) ≤ 5 then none else some ⟨"BTC", 5 - 5⟩) ∧
    lookupEntry
        (unlock_amount [("u", ⟨"BTC", 5⟩), ("w", ⟨"KMD", 3⟩)] "u" 5) "w"
      = lookupEntry [("u", ⟨"BTC", 5⟩), ("w", ⟨"KMD", 3⟩)] "w" :=
  ⟨(unlock_amount_subtracts [("u", ⟨"BTC", 5⟩), ("w", ⟨"KMD", 3⟩)] "u" 5
      (by decide) ⟨"BTC", 5⟩ rfl).1,
   (unlock_amount_subtracts [("u", ⟨"BTC", 5⟩), ("w", ⟨"KMD", 3⟩)] "u" 5
      (by decide) ⟨"BTC", 5⟩ rfl).2 "w" (by decide)⟩

/-- Claim C10: `unlock_amount` on a uuid with no registry entry is a no-op:
the registry (and hence every locked total) is unchanged, and the function
is total (no error, no panic). -/
theorem unlock_amount_vacant_noop (st : Registry) (uuid : String)
    (amount : ℚ) (h : lookupEntry st uuid = none) :
    unlock_amount st uuid amount = st ∧
    ∀ c, get_locked_amount (unlock_amount st uuid amount) c
      = get_locked_amount st c := by
  have heq : unlock_amount st uuid amount = st := by
    induction st with
    | nil => rfl
    | cons hd tl ih =>
      by_cases h2 : hd.1 = uuid
      · simp [lookupEntry, h2] at h
      · simp only [lookupEntry, h2, if_false] at h
        simp [unlock_amount, h2, ih h]
  exact ⟨heq, fun c => by rw [heq]⟩

/-- Witness for `unlock_amount_vacant_noop` at a concrete registry. -/
theorem unlock_amount_vacant_noop_witness :
    unlock_amount [("w", ⟨"KMD", 3⟩)] "u" 7 = [("w", ⟨"KMD", 3⟩)] ∧
    get_locked_amount (unlock_amount [("w", ⟨"KMD", 3⟩)] "u" 7) "KMD"
      = get_locked_amount [("w", ⟨"KMD", 3⟩)] "KMD" :=
  ⟨(unlock_amount_vacant_noop [("w", ⟨"KMD", 3⟩)] "u" 7 (by decide)).1,
   (unlock_amount_vacant_noop [("w", ⟨"KMD", 3⟩)] "u" 7 (by decide)).2 "KMD"⟩

theorem sumLockedExcept_of_not_mem (st : Registry) (u c : String)
    (h : u ∉ keys st) : sumLockedExcept st u c = sumLocked st c := by
  induction st with
  | nil => rfl
  | cons hd tl ih =>
    simp only [keys, List.map_cons, List.mem_cons, not_or] at h
    have hne : hd.1 ≠ u := fun hh => h.1 hh.symm
    have ih2 := ih (by simpa [keys] using h.2)
    by_cases hc : hd.2.coin = c <;>
      simp [sumLockedExcept, sumLocked, List.filter_cons, hne, hc] <;>
      simpa [sumLockedExcept, sumLocked] using ih2

theorem sum_split_at_entry (st : Registry) (u c : String)
    (hnd : (keys st).Nodup) (e : LockedAmount)
    (he : lookupEntry st u = some e) (hc : e.coin = c) :
    sumLocked st c = sumLockedExcept st u c + e.amount := by
  induction st with
  | nil => simp [lookupEntry] at he
  | cons hd tl ih =>
    simp only [keys, List.map_cons, List.nodup_cons] at hnd
    by_cases h : hd.1 = u
    · have hv : hd.2 = e := by simpa [lookupEntry, h] using he
      have hnotin : u ∉ keys tl := by simpa [keys, h] using hnd.1
      have hrest := sumLockedExcept_of_not_mem tl u c hnotin
      have h1 : sumLocked (hd :: tl) c = e.amount + sumLocked tl c := by
        simp [sumLocked, List.filter_cons, hv, hc]
      have h2 : sumLockedExcept (hd :: tl) u c = sumLockedExcept tl u c := by
        simp [sumLockedExcept, List.filter_cons, h]
      rw [h1, h2, hrest, add_comm]
    · have he2 : lookupEntry tl u = some e := by
        simpa [lookupEntry, h] using he
      have ih2 := ih (by simpa [keys] using hnd.2) he2
      by_cases hcoin : hd.2.coin = c
      · have h1 : sumLocked (hd :: tl) c = hd.2.amount + sumLocked tl c := by
          simp [sumLocked, List.filter_cons, hcoin]
        have h2 : sumLockedExcept (hd :: tl) u c
            = hd.2.amount + sumLockedExcept tl u c := by
          simp [sumLockedExcept, List.filter_cons, h, hcoin]
        rw [h1, h2, ih2]; ring
      · have h1 : sumLocked (hd :: tl) c = sumLocked tl c := by
          simp [sumLocked, List.filter_cons, hcoin]
        have h2 : sumLockedExcept (hd :: tl) u c = sumLockedExcept tl u c := by
          simp [sumLockedExcept, List.filter_cons, h, hcoin]
        rw [h1, h2, ih2]

/-- Claim C5: for every registry reachable by `lock_amount` /
`unlock_amount` calls from the empty registry, `get_locked_amount c` is the
sum of `entry.amount` over entries with coin `c`;
`get_locked_amount_by_other_swaps u c` is the same sum restricted to
entries whose uuid differs from `u`; and the two differ exactly by the
amount of `u`'s entry whenever that entry exists with coin `c`. -/
theorem locked_totals_conservation (st : Registry) (h : Reachable st)
    (c u : String) :
    get_locked_amount st c = sumLocked st c ∧
    get_locked_amount_by_other_swaps st u c = sumLockedExcept st u c ∧
    ∀ e, lookupEntry st u = some e → e.coin = c →
      get_locked_amount st c
        = get_locked_amount_by_other_swaps st u c + e.amount := by
  refine ⟨get_locked_amount_eq_sum st c,
    get_locked_amount_by_other_swaps_eq_sum st u c, fun e he hc => ?_⟩
  rw [get_locked_amount_eq_sum, get_locked_amount_by_other_swaps_eq_sum]
  exact sum_split_at_entry st u c (reachable_nodup_keys st h) e he hc

/-- Witness for `locked_totals_conservation` at a concrete registry
obtained by two `lock_amount` calls. -/
theorem locked_totals_conservation_witness :
    get_locked_amount (lock_amount (lock_amount [] "a" "KMD" 2) "b" "KMD" 3)
        "KMD"
      = sumLocked (lock_amount (lock_amount [] "a" "KMD" 2) "b" "KMD" 3)
          "KMD" ∧
    get_locked_amount (lock_amount (lock_amount [] "a" "KMD" 2) "b" "KMD" 3)
        "KMD"
      = get_locked_amount_by_other_swaps
          (lock_amount (lock_amount [] "a" "KMD" 2) "b" "KMD" 3) "a" "KMD"
        + 2 :=
  ⟨(locked_totals_conservation _
      (Reachable.lock _ _ _ _ (Reachable.lock _ _ _ _ Reachable.empty))
      "KMD" "a").1,
   (locked_totals_conservation _
      (Reachable.lock _ _ _ _ (Reachable.lock _ _ _ _ Reachable.empty))
      "KMD" "a").2.2 ⟨"KMD", 2⟩ (by simp [lock_amount, lookupEntry]) rfl⟩

/-- Claim C2: `lp_atomic_locktime` is symmetric in its two tickers, equals
`PAYMENT_LOCKTIME * 10` when either ticker is BTC, `PAYMENT_LOCKTIME * 4`
when neither is BTC and either is BCH, BTG or SBTC, `PAYMENT_LOCKTIME`
otherwise, and `PAYMENT_LOCKTIME` is 7800 seconds. -/
theorem lp_atomic_locktime_spec (a b : String) :
    lp_atomic_locktime a b = lp_atomic_locktime b a ∧
    lp_atomic_locktime a b
      = (if a = "BTC" ∨ b = "BTC" then PAYMENT_LOCKTIME * 10
         else if a = "BCH" ∨ b = "BCH" ∨ a = "BTG" ∨ b = "BTG"
             ∨ a = "SBTC" ∨ b = "SBTC" then PAYMENT_LOCKTIME * 4
         else PAYMENT_LOCKTIME) ∧
    PAYMENT_LOCKTIME = 7800 := by
  refine ⟨?_, rfl, rfl⟩
  unfold lp_atomic_locktime
  split_ifs <;> tauto

/-- Claim C3: `dex_fee_amount base rel amount` equals
`max (amount * r) 0.0001` with `r = 9/7770` when KMD is involved and
`r = 1/777` otherwise, and for every positive amount the fee is at least
`0.0001`. -/
theorem dex_fee_amount_spec (base rel : String) (amount : ℚ) :
    dex_fee_amount base rel amount
      = max (amount * (if base = "KMD" ∨ rel = "KMD" then (9 : ℚ) / 7770
                       else (1 : ℚ) / 777)) (1 / 10000) ∧
    (0 < amount → (1 : ℚ) / 10000 ≤ dex_fee_amount base rel amount) := by
  have hmax : dex_fee_amount base rel amount
      = max (amount * dex_fee_rate base rel) (1 / 10000) := by
    unfold dex_fee_amount
    rcases lt_or_le (amount * dex_fee_rate base rel) (1 / 10000) with h | h
    · simp only [h, if_true]
      exact (max_eq_right h.le).symm
    · simp only [not_lt.2 h, if_false]
      exact (max_eq_left h).symm
  refine ⟨by rw [hmax]; rfl, fun _ => ?_⟩
  rw [hmax]
  exact le_max_right _ _

/-- Witness for `dex_fee_amount_spec` at the concrete floor scenario
`dex_fee_amount "BTC" "KMD" 0.001 = 0.0001` from the repository's own
test. -/
theorem dex_fee_amount_spec_witness :
    dex_fee_amount "BTC" "KMD" (1 / 1000)
      = max ((1 / 1000 : ℚ) * (if "BTC" = "KMD" ∨ "KMD" = "KMD"
          then (9 : ℚ) / 7770 else (1 : ℚ) / 777)) (1 / 10000) ∧
    (1 : ℚ) / 10000 ≤ dex_fee_amount "BTC" "KMD" (1 / 1000) :=
  ⟨(dex_fee_amount_spec "BTC" "KMD" (1 / 1000)).1,
   (dex_fee_amount_spec "BTC" "KMD" (1 / 1000)).2 (by norm_num)⟩

theorem mem_insertByMtime (b e : DirEntry) (l : List DirEntry) :
    b ∈ insertByMtime e l ↔ b = e ∨ b ∈ l := by
  induction l with
  | nil => simp [insertByMtime]
  | cons x xs ih =>
    by_cases hle : x.mtime ≤ e.mtime
    · simp [insertByMtime, hle, List.mem_cons, or_comm, or_left_comm]
    · simp [insertByMtime, hle, List.mem_cons, ih, or_left_comm]

theorem pairwise_insertByMtime (e : DirEntry) (l : List DirEntry)
    (h : l.Pairwise (fun a b => b.mtime ≤ a.mtime)) :
    (insertByMtime e l).Pairwise (fun a b => b.mtime ≤ a.mtime) := by
  induction l with
  | nil => simp [insertByMtime]
  | cons x xs ih =>
    rw [List.pairwise_cons] at h
    by_cases hle : x.mtime ≤ e.mtime
    · rw [insertByMtime, if_pos hle, List.pairwise_cons]
      refine ⟨fun b hb => ?_, List.pairwise_cons.2 h⟩
      rcases List.mem_cons.1 hb with rfl | hb
      · exact hle
      · exact le_trans (h.1 b hb) hle
    · rw [insertByMtime, if_neg hle, List.pairwise_cons]
      refine ⟨fun b hb => ?_, ih h.2⟩
      rcases (mem_insertByMtime b e xs).1 hb with rfl | hb2
      · exact le_of_not_le hle
      · exact h.1 b hb2

theorem pairwise_sortByMtimeDesc (l : List DirEntry) :
    (sortByMtimeDesc l).Pairwise (fun a b => b.mtime ≤ a.mtime) := by
  induction l with
  | nil => simp [sortByMtimeDesc]
  | cons e xs ih => exact pairwise_insertByMtime e _ ih

theorem position_split (p : DirEntry → Bool) (l : List DirEntry) (i : ℕ)
    (h : position p l = some i) :
    ∃ e pre post, l = pre ++ e :: post ∧ pre.length = i ∧ p e = true ∧
      (∀ x ∈ pre, p x = false) ∧ l.drop (i + 1) = post := by
  induction l generalizing i with
  | nil => simp [position] at h
  | cons x xs ih =>
    by_cases hp : p x
    · rw [position, if_pos hp] at h
      obtain rfl : (0 : ℕ) = i := by simpa using h
      exact ⟨x, [], xs, rfl, rfl, hp, by simp, by simp⟩
    · rw [position, if_neg hp] at h
      cases hj : position p xs with
      | none => rw [hj] at h; simp at h
      | some j =>
        rw [hj] at h
        obtain rfl : j + 1 = i := by simpa using h
        obtain ⟨e, pre, post, hl, hlen, hpe, hpre, hdrop⟩ := ih j hj
        refine ⟨e, x :: pre, post, by simp [hl], by simp [hlen], hpe,
          ?_, by simpa using hdrop⟩
        intro y hy
        rcases List.mem_cons.1 hy with rfl | hy2
        · simpa using hp
        · exact hpre y hy2

theorem position_eq_none (p : DirEntry → Bool) (l : List DirEntry) :
    position p l = none ↔ ∀ x ∈ l, p x = false := by
  induction l with
  | nil => simp [position]
  | cons x xs ih =>
    by_cases hp : p x
    · simp [position, hp]
    · simp [position, hp, ih, Option.map_eq_none]

/-- Claim C8: an `ok` result of `my_recent_swaps` is sorted by descending
modification time and holds at most `limit` entries (10 when `limit` is
omitted, so the two calls agree); when `from_uuid` is supplied the result
starts right after the first sorted entry whose path is that uuid's swap
file, every entry up to and including it being skipped, and the call
errors when no listed entry has that path; without `from_uuid` the result
is simply the first `limit` sorted entries. -/
theorem my_recent_swaps_spec (dbdir : String) (entries : List DirEntry)
    (limit : Option ℕ) (from_uuid : Option String) :
    (∀ l, my_recent_swaps dbdir entries limit from_uuid = Except.ok l →
        l.Pairwise (fun a b => b.mtime ≤ a.mtime) ∧
        l.length ≤ limit.getD 10) ∧
    my_recent_swaps dbdir entries none from_uuid
      = my_recent_swaps dbdir entries (some 10) from_uuid ∧
    (∀ uuid, from_uuid = some uuid →
      (∀ l, my_recent_swaps dbdir entries limit from_uuid = Except.ok l →
          ∃ e pre post,
            sortByMtimeDesc (entries.filter (·.isJson))
              = pre ++ e :: post ∧
            e.path = my_swap_file_path dbdir uuid ∧
            (∀ x ∈ pre, x.path ≠ my_swap_file_path dbdir uuid) ∧
            l = post.take (limit.getD 10)) ∧
      ((∀ e ∈ sortByMtimeDesc (entries.filter (·.isJson)),
          e.path ≠ my_swap_file_path dbdir uuid) →
        ∃ msg, my_recent_swaps dbdir entries limit from_uuid
          = Except.error msg)) ∧
    (∀ l, my_recent_swaps dbdir entries limit none = Except.ok l →
        l = (sortByMtimeDesc (entries.filter (·.isJson))).take
              (limit.getD 10)) := by
  have hsorted := pairwise_sortByMtimeDesc (entries.filter (·.isJson))
  refine ⟨?_, ?_, ?_, ?_⟩
  · intro l hl
    have hsub : ∀ k n, List.Sublist
        (((sortByMtimeDesc (entries.filter (·.isJson))).drop k).take n)
        (sortByMtimeDesc (entries.filter (·.isJson))) := fun k n =>
      (List.take_sublist _ _).trans (List.drop_sublist _ _)
    cases hfu : from_uuid with
    | none =>
      rw [hfu] at hl
      have heq0 : (sortByMtimeDesc (entries.filter (·.isJson))).take
          (limit.getD 10) = l := by
        simpa [my_recent_swaps] using hl
      subst heq0
      exact ⟨List.Pairwise.sublist (List.take_sublist _ _) hsorted,
        List.length_take_le _ _⟩
    | some uuid =>
      rw [hfu] at hl
      cases hpos : position
          (fun e => e.path = my_swap_file_path dbdir uuid)
          (sortByMtimeDesc (entries.filter (·.isJson))) with
      | none => simp [my_recent_swaps, hpos] at hl
      | some i =>
        have heq0 : (((sortByMtimeDesc
            (entries.filter (·.isJson))).drop (i + 1)).take
              (limit.getD 10)) = l := by
          simpa [my_recent_swaps, hpos] using hl
        subst heq0
        exact ⟨List.Pairwise.sublist (hsub (i + 1) (limit.getD 10)) hsorted,
          List.length_take_le _ _⟩
  · cases from_uuid <;> rfl
  · intro uuid hfu
    subst hfu
    cases hpos : position
        (fun e => e.path = my_swap_file_path dbdir uuid)
        (sortByMtimeDesc (entries.filter (·.isJson))) with
    | none =>
      constructor
      · intro l hl
        simp [my_recent_swaps, hpos] at hl
      · intro _
        refine ⟨"from_uuid " ++ uuid ++ " swap is not found", ?_⟩
        simp [my_recent_swaps, hpos]
    | some i =>
      obtain ⟨e, pre, post, hsplit, hlen, hpe, hpre, hdrop⟩ :=
        position_split _ _ i hpos
      constructor
      · intro l hl
        have heq : (((sortByMtimeDesc
            (entries.filter (·.isJson))).drop (i + 1)).take
              (limit.getD 10)) = l := by
          simpa [my_recent_swaps, hpos] using hl
        refine ⟨e, pre, post, hsplit, by simpa using hpe,
          fun x hx => by simpa using hpre x hx, ?_⟩
        rw [← heq, hdrop]
      · intro hnone
        have hmem : e ∈ sortByMtimeDesc (entries.filter (·.isJson)) := by
          rw [hsplit]
          exact List.mem_append_right pre (List.mem_cons_self e post)
        exact absurd (by simpa using hpe) (hnone e hmem)
  · intro l hl
    have heq : (sortByMtimeDesc (entries.filter (·.isJson))).take
        (limit.getD 10) = l := by
      simpa [my_recent_swaps] using hl
    exact heq.symm

/-- Witness for `my_recent_swaps_spec` on a concrete three-file directory
(one non-json file, `from_uuid` hitting the newest file). -/
theorem my_recent_swaps_spec_witness :
    (([⟨5, "db/SWAPS/MY/a.json", true⟩] : List DirEntry).Pairwise
        (fun a b => b.mtime ≤ a.mtime) ∧
      ([(⟨5, "db/SWAPS/MY/a.json", true⟩ : DirEntry)]).length ≤ 10) ∧
    (∃ e pre post,
      sortByMtimeDesc (List.filter (·.isJson)
          [⟨5, "db/SWAPS/MY/a.json", true⟩, ⟨7, "db/SWAPS/MY/b.json", true⟩,
           ⟨6, "db/SWAPS/MY/n.txt", false⟩]) = pre ++ e :: post ∧
      e.path = my_swap_file_path "db" "b" ∧
      (∀ x ∈ pre, x.path ≠ my_swap_file_path "db" "b") ∧
      [(⟨5, "db/SWAPS/MY/a.json", true⟩ : DirEntry)] = post.take 10) :=
  ⟨(my_recent_swaps_spec "db"
      [⟨5, "db/SWAPS/MY/a.json", true⟩, ⟨7, "db/SWAPS/MY/b.json", true⟩,
       ⟨6, "db/SWAPS/MY/n.txt", false⟩] none (some "b")).1
      [⟨5, "db/SWAPS/MY/a.json", true⟩] rfl,
   ((my_recent_swaps_spec "db"
      [⟨5, "db/SWAPS/MY/a.json", true⟩, ⟨7, "db/SWAPS/MY/b.json", true⟩,
       ⟨6, "db/SWAPS/MY/n.txt", false⟩] none (some "b")).2.2.1 "b" rfl).1
      [⟨5, "db/SWAPS/MY/a.json", true⟩] rfl⟩

theorem toLEBytes_length (k n : ℕ) : (toLEBytes k n).length = k := by
  induction k generalizing n with
  | zero => rfl
  | succ k ih => simp [toLEBytes, ih]

theorem fromLEBytes_toLEBytes (k n : ℕ) (h : n < 2 ^ (8 * k)) :
    fromLEBytes (toLEBytes k n) = n := by
  induction k generalizing n with
  | zero =>
    interval_cases n
    rfl
  | succ k ih =>
    have hdiv : n / 256 < 2 ^ (8 * k) := by
      rw [Nat.div_lt_iff_lt_mul (by norm_num : (0:ℕ) < 256)]
      calc n < 2 ^ (8 * (k + 1)) := h
        _ = 2 ^ (8 * k) * 256 := by ring
    rw [toLEBytes, fromLEBytes, ih _ hdiv, Nat.mod_add_div]

/-- Claim C9: for every `SwapNegotiationData` with `u64`-ranged integer
fields, a 20-byte `secret_hash` and a 33-byte `persistent_pubkey`,
deserializing the byte serialization succeeds and returns the original
value. -/
theorem serde_swap_negotiation_data_roundtrip (d : SwapNegotiationData)
    (h1 : d.started_at < 2 ^ 64) (h2 : d.payment_locktime < 2 ^ 64)
    (h3 : d.secret_hash.length = 20)
    (h4 : d.persistent_pubkey.length = 33) :
    deserializeNegotiationData (serializeNegotiationData d) = some d := by
  have hlen1 : (toLEBytes 8 d.started_at).length = 8 := toLEBytes_length _ _
  have hlen2 : (toLEBytes 8 d.payment_locktime).length = 8 :=
    toLEBytes_length _ _
  have hlen : (serializeNegotiationData d).length = 69 := by
    simp [serializeNegotiationData, hlen1, hlen2, h3, h4]
  rw [deserializeNegotiationData, if_pos hlen]
  have htake8 : (serializeNegotiationData d).take 8
      = toLEBytes 8 d.started_at := by
    rw [serializeNegotiationData, List.append_assoc, List.append_assoc,
      List.take_left' hlen1]
  have hdrop8 : (serializeNegotiationData d).drop 8
      = toLEBytes 8 d.payment_locktime ++
        (d.secret_hash ++ d.persistent_pubkey) := by
    rw [serializeNegotiationData, List.append_assoc, List.append_assoc,
      List.drop_left' hlen1]
  have hdrop16 : (serializeNegotiationData d).drop 16
      = d.secret_hash ++ d.persistent_pubkey := by
    have : (16 : ℕ) = 8 + 8 := rfl
    rw [this, ← List.drop_drop, hdrop8, List.drop_left' hlen2]
  have hdrop36 : (serializeNegotiationData d).drop 36
      = d.persistent_pubkey := by
    have : (36 : ℕ) = 16 + 20 := rfl
    rw [this, ← List.drop_drop, hdrop16, List.drop_left' h3]
  rw [htake8, hdrop8, hdrop16, hdrop36, List.take_left' hlen2,
    List.take_left' h3,
    fromLEBytes_toLEBytes 8 d.started_at (by simpa using h1),
    fromLEBytes_toLEBytes 8 d.payment_locktime (by simpa using h2)]

/-- Witness for `serde_swap_negotiation_data_roundtrip` at the all-zero
value (the `SwapNegotiationData::default()` of the repository's own
test). -/
theorem serde_swap_negotiation_data_roundtrip_witness :
    deserializeNegotiationData (serializeNegotiationData
        ⟨0, 0, List.replicate 20 0, List.replicate 33 0⟩)
      = some ⟨0, 0, List.replicate 20 0, List.replicate 33 0⟩ :=
  serde_swap_negotiation_data_roundtrip
    ⟨0, 0, List.replicate 20 0, List.replicate 33 0⟩
    (by norm_num) (by norm_num) (by simp) (by simp)

end LpSwap

namespace WasmWs

theorem entryActions_no_send (s : WsState) (m : Json) :
    Action.sockSend m ∉ entryActions s := by
  cases s <;> simp [entryActions]

theorem stepWs_no_send (s : WsState) (e : StateEvent) (hs : s ≠ .Open)
    (m : Json) : Action.sockSend m ∉ (stepWs s e).2 := by
  cases s <;> cases e <;> try (rename_i te; cases te)
  all_goals simp_all [stepWs]

theorem stepWs_fst_ne_open (s : WsState) (e : StateEvent) (hs : s ≠ .Open)
    (he : e ≠ .WsTransportEvent .Establish) : (stepWs s e).1 ≠ .Open := by
  cases s <;> cases e <;> try (rename_i te; cases te)
  all_goals simp_all [stepWs]

theorem runFrom_no_send (s : WsState) (hs : s ≠ .Open)
    (evs : List StateEvent)
    (hevs : StateEvent.WsTransportEvent .Establish ∉ evs) (m : Json) :
    Action.sockSend m ∉ (runFrom s evs).2 := by
  induction evs generalizing s with
  | nil => simp [runFrom]
  | cons e rest ih =>
    simp only [List.mem_cons, not_or] at hevs
    have hnext : (stepWs s e).1 ≠ .Open :=
      stepWs_fst_ne_open s e hs (fun hh => hevs.1 hh.symm)
    simp only [runFrom, List.mem_append, not_or]
    refine ⟨⟨stepWs_no_send s e hs m, ?_⟩, ih _ hnext hevs.2⟩
    split
    · simp
    · exact entryActions_no_send _ m

/-- Claim C6: while the machine is in `Connecting`, a consumed outgoing
message is bounced back to the user as
`Error (OutgoingError IsNotConnected)` carrying the original payload, the
machine stays in `Connecting`, and that handling performs no socket write;
moreover, in any run from `Connecting` consuming no `Establish` transport
event, no outgoing message is ever written to the socket. -/
theorem connecting_bounces_outgoing :
    (∀ outgoing : Json,
      stepWs .Connecting (.OutgoingMessage outgoing)
        = (.Connecting,
           [.notify (.Error (.OutgoingError .IsNotConnected outgoing))])) ∧
    ∀ evs : List StateEvent,
      StateEvent.WsTransportEvent .Establish ∉ evs →
      ∀ m : Json, Action.sockSend m ∉ (runFrom .Connecting evs).2 :=
  ⟨fun _ => rfl,
   fun evs hevs m => runFrom_no_send .Connecting (by simp) evs hevs m⟩

/-- Witness for `connecting_bounces_outgoing` on a concrete run. -/
theorem connecting_bounces_outgoing_witness :
    stepWs .Connecting (.OutgoingMessage "ping")
      = (.Connecting,
         [.notify (.Error (.OutgoingError .IsNotConnected "ping"))]) ∧
    Action.sockSend "ping"
      ∉ (runFrom .Connecting
          [.OutgoingMessage "ping", .UserSideClosed]).2 :=
  ⟨connecting_bounces_outgoing.1 "ping",
   connecting_bounces_outgoing.2 [.OutgoingMessage "ping", .UserSideClosed]
     (by decide) "ping"⟩

/-- Claim C7: every step of the machine either keeps the state or makes a
transition declared by a `TransitionFrom` implementation; from
`Connecting` the machine moves to `Open` exactly on `Establish`, to
`Closed` exactly on `Close`, and to `Closing` exactly on an `Error` or
`UserSideClosed`; from `Open` it only reaches `Open`, `Closing` or
`Closed`; from `Closing` only `Closing` or `Closed`; `Closed` is
absorbing; and the state space is exactly the four declared states. -/
theorem fsm_transitions_declared :
    (∀ (s : WsState) (e : StateEvent),
        (stepWs s e).1 = s ∨ declaredTransition s (stepWs s e).1) ∧
    (∀ e, (stepWs .Connecting e).1 = .Open
        ↔ e = .WsTransportEvent .Establish) ∧
    (∀ e, (stepWs .Connecting e).1 = .Closed
        ↔ e = .WsTransportEvent .Close) ∧
    (∀ e, (stepWs .Connecting e).1 = .Closing
        ↔ e = .UserSideClosed ∨ ∃ d, e = .WsTransportEvent (.Error d)) ∧
    (∀ e, (stepWs .Open e).1 = .Open ∨ (stepWs .Open e).1 = .Closing
        ∨ (stepWs .Open e).1 = .Closed) ∧
    (∀ e, (stepWs .Closing e).1 = .Closing
        ∨ (stepWs .Closing e).1 = .Closed) ∧
    (∀ e, (stepWs .Closed e).1 = .Closed) ∧
    (∀ s : WsState,
        s = .Connecting ∨ s = .Open ∨ s = .Closing ∨ s = .Closed) := by
  refine ⟨?_, ?_, ?_, ?_, ?_, ?_, ?_, ?_⟩
  · intro s e
    cases s <;> cases e <;> try (rename_i te; cases te)
    all_goals simp [stepWs, declaredTransition]
  · intro e
    cases e <;> try (rename_i te; cases te)
    all_goals simp [stepWs]
  · intro e
    cases e <;> try (rename_i te; cases te)
    all_goals simp [stepWs]
  · intro e
    cases e <;> try (rename_i te; cases te)
    all_goals simp [stepWs]
  · intro e
    cases e <;> try (rename_i te; cases te)
    all_goals simp [stepWs]
  · intro e
    cases e <;> try (rename_i te; cases te)
    all_goals simp [stepWs]
  · intro e
    cases e <;> try (rename_i te; cases te)
    all_goals simp [stepWs]
  · intro s
    cases s <;> simp

end WasmWs
